import Mathlib

/-!
Verification development for `src/vcfconvert.c` (bcftools `convert` subcommand).

The definitions below are a shallow embedding of the functions of
`vcfconvert.c`: pure C helpers become Lean functions, the mutable
`args_t` counters and the per-site allele table become explicit state
that is threaded through the functions, and calls to `error(...)`
(which aborts the process) become a distinguished `fatal` result.
Machine `int` values that can go negative (the allele table entries,
the genotype encodings) are modelled as `Int`; the values involved are
tiny, so no overflow wrapping is needed.

Collaborators that are not part of `vcfconvert.c` (htslib, `tsv2vcf.c`,
`filter.c`, `convert.c`) are modelled at their interface boundary; each
such definition carries a doc comment saying what is modelled from the
specification rather than translated from the source.
-/

namespace VcfConvert

/-! ## Constants and small helpers from vcfconvert.c -/

/-- Filter polarity bit: include sites matching the filter (`FLT_INCLUDE`). -/
def FLT_INCLUDE : Nat := 1

/-- Filter polarity bit: exclude sites matching the filter (`FLT_EXCLUDE`). -/
def FLT_EXCLUDE : Nat := 2

/-- Embeds `acgt_to_5`: map a base character to one of five slots
(A, C, G, T, anything else to the fifth "unknown" slot). -/
def acgt_to_5 (base : Char) : Nat :=
  if base = 'A' then 0
  else if base = 'C' then 1
  else if base = 'G' then 2
  else if base = 'T' then 3
  else 4

/-- Embeds the htslib macro `bcf_gt_unphased(idx) = ((idx)+1)<<1`. -/
def bcf_gt_unphased (idx : Int) : Int := (idx + 1) * 2

/-- Embeds the htslib sentinel `bcf_int32_vector_end = INT32_MIN + 1`. -/
def bcf_int32_vector_end : Int := -2147483647

/-- The per-run counters of `args->n` that the conversion updates
(`total, skipped, hom_rr, het_ra, hom_aa, het_aa`). -/
structure Counters where
  total : Nat
  skipped : Nat
  hom_rr : Nat
  het_ra : Nat
  hom_aa : Nat
  het_aa : Nat
deriving DecidableEq, Repr

/-- Embeds the genotype-class tally of `tsv_setter_aa1` (the if/else chain
comparing the two base codes `a0`, `a1` with the reference code `ref`). -/
def bumpCounter (c : Counters) (ref a0 a1 : Nat) : Counters :=
  if ref = a0 ∧ ref = a1 then { c with hom_rr := c.hom_rr + 1 }
  else if ref = a0 then { c with het_ra := c.het_ra + 1 }
  else if ref = a1 then { c with het_ra := c.het_ra + 1 }
  else if a0 = a1 then { c with hom_aa := c.hom_aa + 1 }
  else { c with het_aa := c.het_aa + 1 }

/-- Sum of the four genotype-class tallies. -/
def cntClassTotal (c : Counters) : Nat := c.hom_rr + c.het_ra + c.hom_aa + c.het_aa

/-- The C array `int alleles[5]` of `tsv_setter_aa` (slots for a,c,g,t,n;
`-1` means the base has not been assigned an allele index yet). -/
structure AlleleTab where
  fA : Int
  fC : Int
  fG : Int
  fT : Int
  fN : Int
deriving DecidableEq, Repr

/-- Read `alleles[i]`.  Indices computed by `acgt_to_5` are always `< 5`. -/
def getAl (t : AlleleTab) (i : Nat) : Int :=
  match i with
  | 0 => t.fA
  | 1 => t.fC
  | 2 => t.fG
  | 3 => t.fT
  | _ => t.fN

/-- Write `alleles[i] = v`. -/
def setAl (t : AlleleTab) (i : Nat) (v : Int) : AlleleTab :=
  match i with
  | 0 => { t with fA := v }
  | 1 => { t with fC := v }
  | 2 => { t with fG := v }
  | 3 => { t with fT := v }
  | _ => { t with fN := v }

/-- The mutable state a single `tsv_setter_aa` site threads through its
per-sample calls: the allele table, the `nals` counter and `args->n`. -/
structure SiteState where
  alleles : AlleleTab
  nals : Nat
  cnt : Counters
deriving DecidableEq, Repr

/-- Embeds `if ( alleles[a]<0 ) alleles[a] = (*nals)++;` -/
def assignAllele (st : SiteState) (a : Nat) : SiteState :=
  if getAl st.alleles a < 0 then
    { st with alleles := setAl st.alleles a (Int.ofNat st.nals), nals := st.nals + 1 }
  else st

/-- Result of `tsv_setter_aa1`: `-1` (unsupported call length, leads to a
fatal `error(...)` in the caller), `-2` (gap/indel/no-call marker), or `0`
with the updated state and the two
genotype values written to `gts[0]`, `gts[1]`. -/
inductive Aa1Out where
  | err
  | skipSite
  | ok (st : SiteState) (gt0 gt1 : Int)
deriving DecidableEq, Repr

/-- Embeds `tsv_setter_aa1`.  The token is the 1–2 character call string
`ss..se`; `ss[1]` in the C code is the second character of the token, or
the terminating NUL for a one-character token. -/
def tsv_setter_aa1 (tok : List Char) (st : SiteState) (ref : Nat) : Aa1Out :=
  if 2 < tok.length then .err
  else
    match tok with
    | [] => .err    -- unreachable: the tabular reader yields non-empty tokens
    | c0 :: rest =>
      if c0 = '-' then .skipSite
      else if c0 = 'I' then .skipSite
      else if c0 = 'D' then .skipSite
      else
        let a0 := acgt_to_5 c0.toUpper
        let a1 := match rest with
                  | [] => a0
                  | c1 :: _ => acgt_to_5 c1.toUpper
        let st1 := assignAllele (assignAllele st a0) a1
        let gt0 : Int := bcf_gt_unphased (getAl st1.alleles a0)
        let gt1 : Int :=
          match rest with
          | [] => bcf_int32_vector_end
          | _ :: _ => bcf_gt_unphased (getAl st1.alleles a1)
        .ok { st1 with cnt := bumpCounter st1.cnt ref a0 a1 } gt0 gt1

/-- The string `"ACGTN"` used when emitting alleles. -/
def alleleChars : List Char := ['A', 'C', 'G', 'T', 'N']

/-- Embeds the allele emission loop of `tsv_setter_aa`:
`kputc(ref[0]); for (i=0;i<5;i++) if (alleles[i]>0) { kputc(','); kputc("ACGTN"[i]); }` -/
def emitAlleles (refU : Char) (t : AlleleTab) : List Char :=
  refU ::
    ((if t.fA > 0 then [',', 'A'] else []) ++
     (if t.fC > 0 then [',', 'C'] else []) ++
     (if t.fG > 0 then [',', 'G'] else []) ++
     (if t.fT > 0 then [',', 'T'] else []) ++
     (if t.fN > 0 then [',', 'N'] else []))

/-- Result of the per-sample loop of `tsv_setter_aa`: a fatal `error(...)`
(unsupported call length or too few columns), a gap marker found
(`ret==-2`, loop abandoned with the state reached so far), or all samples
decoded with their genotype pairs in sample order. -/
inductive ScanOut where
  | fatal
  | gap (st : SiteState)
  | all (st : SiteState) (gts : List (Int × Int))
deriving DecidableEq, Repr

/-- Embeds the `for (i=0; i<rec->n_sample; i++)` loop of `tsv_setter_aa`:
the `i`-th sample token is decoded by `tsv_setter_aa1`; a missing token is
the fatal "Too few columns" error, `-1` is the fatal "expected two
characters" error, and `-2` abandons the loop. -/
def scanSamples : Nat → List (List Char) → SiteState → Nat → ScanOut
  | 0, _, st, _ => .all st []
  | Nat.succ _, [], _, _ => .fatal
  | Nat.succ n, t :: ts, st, ref =>
    match tsv_setter_aa1 t st ref with
    | .err => .fatal
    | .skipSite => .gap st
    | .ok st1 g0 g1 =>
      match scanSamples n ts st1 ref with
      | .fatal => .fatal
      | .gap stG => .gap stG
      | .all stF gs => .all stF ((g0, g1) :: gs)

/-- What `tsv_setter_aa` writes into the output record when it completes:
the allele string passed to `bcf_update_alleles_str` and the genotype
pairs passed to `bcf_update_genotypes`. -/
structure AaRecord where
  allelesStr : List Char
  gts : List (Int × Int)
deriving DecidableEq, Repr

/-- Return value of `tsv_setter_aa` as seen by the tsv parser: a fatal
`error(...)`, or the C return value `0` together with the final counters
and (when the site completed) the record update. -/
inductive AaOut where
  | fatal
  | ret0 (cnt : Counters) (update : Option AaRecord)
deriving DecidableEq, Repr

/-- The site state constructed at the top of `tsv_setter_aa`:
`nals = 1`, all table entries `-1` except the reference base slot, which
is assigned index `0`. -/
def initSiteState (cnt : Counters) (iref : Nat) : SiteState :=
  { alleles := setAl { fA := -1, fC := -1, fG := -1, fT := -1, fN := -1 } iref 0
  , nals := 1
  , cnt := cnt }

/-- Embeds `tsv_setter_aa` for a site whose fetched reference base is
`refBase`: uppercase the reference base, build the initial allele table,
run the per-sample loop, and on completion emit the allele string and the
genotypes.  On the gap path (`ret==-2`) the function returns `0` without
updating the record. -/
def tsv_setter_aa (refBase : Char) (nsamples : Nat) (toks : List (List Char))
    (cnt : Counters) : AaOut :=
  let refU := refBase.toUpper
  let iref := acgt_to_5 refU
  match scanSamples nsamples toks (initSiteState cnt iref) iref with
  | .fatal => .fatal
  | .gap st => .ret0 st.cnt none
  | .all st gts =>
      .ret0 st.cnt (some { allelesStr := emitAlleles refU st.alleles, gts := gts })

/-- Outcome of one input row in the `tsv_to_vcf` driver loop: the run
aborts (`error(...)`), the record is written by `bcf_write` (with the
update the AA setter made, if any), or the row is counted in
`args->n.skipped`. -/
inductive RowOutcome where
  | fatal
  | written (cnt : Counters) (update : Option AaRecord)
  | skippedRow (cnt : Counters)
deriving DecidableEq, Repr

/-- Modelled from the spec: the tabular reader (`tsv_parse` / `tsv_next`
of tsv2vcf, which is not under `src/`) yields the row's fields to the
registered column setters and reports a parse failure for a malformed row
exactly when a setter reports failure by returning a negative value; a
zero return from the setter is a successful parse.  The driver loop of
`tsv_to_vcf` (which is under `src/`) counts the row in `n.total`, writes
the record when the parse succeeds, and increments `n.skipped` when it
fails. -/
def processRow (refBase : Char) (nsamples : Nat) (toks : List (List Char))
    (cnt : Counters) : RowOutcome :=
  let cnt1 := { cnt with total := cnt.total + 1 }
  match tsv_setter_aa refBase nsamples toks cnt1 with
  | .fatal => .fatal
  | .ret0 c upd => .written c upd

/-- The two base codes a token resolves to in `tsv_setter_aa1`
(`a0` and `a1`; a one-character token resolves both to the same code). -/
def tokenCodes : List Char → List Nat
  | [] => []
  | c0 :: rest =>
    let a0 := acgt_to_5 c0.toUpper
    match rest with
    | [] => [a0, a0]
    | c1 :: _ => [a0, acgt_to_5 c1.toUpper]

/-- All base codes observed while decoding the first `n` sample tokens. -/
def obsCodes : Nat → List (List Char) → List Nat
  | 0, _ => []
  | Nat.succ _, [] => []
  | Nat.succ n, t :: ts => tokenCodes t ++ obsCodes n ts

/-! ## The variant-to-tabular direction (`vcf_to_gensample`) -/

/-- The per-site data `vcf_to_gensample` inspects: the site's allele count
`line->n_allele` and the text `convert_line` renders for it (`convert.c`
is an external collaborator, so its output is carried as opaque data). -/
structure Site where
  n_allele : Nat
  conv : List Char
deriving DecidableEq, Repr

/-- Embeds the filter gate of `vcf_to_gensample`
(`pass = filter_test(...); if (logic & FLT_EXCLUDE) pass = pass?0:1;`):
given the configured predicate evaluator (or `none` when no filter was
supplied) and the polarity bits, decide whether the site passes. -/
def sitePass (filt : Option (Site → Bool)) (logic : Nat) (line : Site) : Bool :=
  match filt with
  | none => true
  | some f =>
    let pass := f line
    if logic &&& FLT_EXCLUDE ≠ 0 then !pass else pass

/-- Embeds the per-site body of the `vcf_to_gensample` streaming loop:
skip the site when `n_allele == 1`, then apply the filter gate, then write
the converted text when it is non-empty. -/
def processSite (filt : Option (Site → Bool)) (logic : Nat) (line : Site) :
    Option (List Char) :=
  if line.n_allele = 1 then none
  else if sitePass filt logic line = false then none
  else if line.conv.length ≠ 0 then some line.conv else none

/-- The lines `vcf_to_gensample` prints to the sample-metadata file:
the two header lines followed by one `"<name> <name> 0"` line per sample. -/
def sampleFileLines (samples : List String) : List String :=
  "ID_1 ID_2 missing" :: "0 0 0" :: samples.map (fun s => s ++ " " ++ s ++ " 0")

/-- One observable output action of `vcf_to_gensample`: a write to or
close of the sample-metadata stream, or of the genotype stream. -/
inductive Ev where
  | sampleWrite (s : String)
  | sampleClose
  | genWrite (s : List Char)
  | genClose
deriving DecidableEq, Repr

/-- Whether an event belongs to the sample-metadata stream. -/
def isSampleEv : Ev → Bool
  | .sampleWrite _ => true
  | .sampleClose => true
  | .genWrite _ => false
  | .genClose => false

/-- Embeds the output trace of `vcf_to_gensample` after the file names are
resolved: the sample file is fully written and closed (`fopen`/`fprintf`/`fclose`),
then each surviving site is written to the genotype stream, which is
closed at the end (`bgzf_open`/`bgzf_write`/`bgzf_close`). -/
def vcf_to_gensample_events (samples : List String) (filt : Option (Site → Bool))
    (logic : Nat) (sites : List Site) : List Ev :=
  (sampleFileLines samples).map Ev.sampleWrite ++
    Ev.sampleClose :: ((sites.filterMap (processSite filt logic)).map Ev.genWrite ++ [Ev.genClose])

/-! ## Output routing (`vcf_to_gensample`, file-name resolution) -/

/-- The resolved output destinations of `vcf_to_gensample`. -/
structure OutSpec where
  gen_fname : List Char
  sample_fname : List Char
  is_compressed : Bool
deriving DecidableEq, Repr

/-- Embeds the `.gz` suffix test
`strlen(gen_fname)<3 || strcasecmp(".gz", gen_fname+strlen(gen_fname)-3)`:
the last three characters must match `".gz"` case-insensitively. -/
def endsWithGzCI (g : List Char) : Bool :=
  if g.length < 3 then false
  else decide ((g.drop (g.length - 3)).map Char.toLower = ['.', 'g', 'z'])

/-- Follows the spec's words, for comparison with the code's check: the
genotype path "ends in a `.gz` suffix", read literally (case-sensitively). -/
def gzSuffixSpec (g : List Char) : Bool :=
  decide (3 ≤ g.length) && decide (g.drop (g.length - 3) = ['.', 'g', 'z'])

/-- Embeds the `while ( *t && *t!=',' ) t++;` scan: split the output
specifier at its first comma, if any. -/
def splitAtComma : List Char → Option (List Char × List Char)
  | [] => none
  | c :: t =>
    if c = ',' then some ([], t)
    else
      match splitAtComma t with
      | none => none
      | some p => some (c :: p.1, p.2)

/-- Embeds the output-specifier resolution of `vcf_to_gensample`:
with a comma, the genotype path is the text before the first comma
(compressed exactly when it passes the `.gz` check) and the sample path is
the text after it; without a comma, the specifier is a prefix getting
`".gen.gz"` (compressed, since `is_compressed` stays `1`) and `".samples"`. -/
def resolveOutSpec (s : List Char) : OutSpec :=
  match splitAtComma s with
  | some p =>
      { gen_fname := p.1, sample_fname := p.2, is_compressed := endsWithGzCI p.1 }
  | none =>
      { gen_fname := s ++ (".gen.gz").toList
      , sample_fname := s ++ (".samples").toList
      , is_compressed := true }

/-! ## Sample selection (`open_vcf`) -/

/-- Result of the sample-selection stage of `open_vcf`: a fatal error from
`bcf_hdr_set_samples` (a requested name missing from the header), the
fatal "The number of samples does not match" error, or success with the
restricted header and, for an unnegated list, the per-sample index map. -/
inductive SampleResolution where
  | fatalBadName
  | fatalCountMismatch
  | okRes (restricted : List String) (ord : Option (List Nat))
deriving DecidableEq, Repr

/-- Embeds the sample-selection stage of `open_vcf` for a sample list
`req` against header sample names `header`.  The htslib collaborators are
modelled from the spec: `bcf_hdr_set_samples` (not under `src/`) fails
when a requested name is absent and otherwise restricts the header to the
requested names, keeping one entry per distinct name in header order (for
a negated list it removes them instead); `hts_readlist` yields the
resolved name list; `bcf_hdr_id2int` is the index of a name in the
restricted header.  The count check `n != bcf_hdr_nsamples(...)` and the
decision to build the reordering map only for unnegated lists are
translated from `open_vcf` itself. -/
def open_vcf_samples (header req : List String) (negated : Bool) : SampleResolution :=
  if req.any (fun s => !(decide (s ∈ header))) then .fatalBadName
  else if negated then
    .okRes (header.filter (fun s => !(decide (s ∈ req)))) none
  else
    let restricted := header.filter (fun s => decide (s ∈ req))
    if req.length ≠ restricted.length then .fatalCountMismatch
    else .okRes restricted (some (req.map (fun s => restricted.indexOf s)))

/-! ## Option processing (`main_vcfconvert`) -/

/-- The `getopt` cases of `main_vcfconvert` that touch the filter
configuration: `-i` (long form `--include`), `-e` (long form `--exclude`),
and everything else. -/
inductive Opt where
  | optInclude (s : String)
  | optExclude (s : String)
  | optOther
deriving DecidableEq, Repr

/-- The filter-related fields of `args_t` set during option processing. -/
structure FilterArgs where
  filter_str : Option String
  filter_logic : Nat
deriving DecidableEq, Repr

/-- Embeds the two `getopt` cases
`case 'e': args->filter_str = optarg; args->filter_logic |= FLT_EXCLUDE;` and
`case 'i': args->filter_str = optarg; args->filter_logic |= FLT_INCLUDE;`. -/
def applyOpt (a : FilterArgs) : Opt → FilterArgs
  | .optExclude s => { filter_str := some s, filter_logic := a.filter_logic ||| FLT_EXCLUDE }
  | .optInclude s => { filter_str := some s, filter_logic := a.filter_logic ||| FLT_INCLUDE }
  | .optOther => a

/-- Embeds the option loop of `main_vcfconvert` restricted to the filter
fields, starting from the `calloc`-zeroed `args_t`. -/
def parseOpts (opts : List Opt) : FilterArgs :=
  opts.foldl applyOpt { filter_str := none, filter_logic := 0 }

/-- The expression string an option supplies, if it is `-i` or `-e`. -/
def exprStr? : Opt → Option String
  | .optInclude s => some s
  | .optExclude s => some s
  | .optOther => none

/-! ## Helper lemmas -/

/-- Assigning an allele slot never touches the counters. -/
lemma assignAllele_cnt (st : SiteState) (a : Nat) : (assignAllele st a).cnt = st.cnt := by
  unfold assignAllele; split <;> rfl

/-- A token longer than two characters makes `tsv_setter_aa1` return `-1`. -/
lemma aa1_err_of_long {tok : List Char} {st : SiteState} {ref : Nat}
    (h : 2 < tok.length) : tsv_setter_aa1 tok st ref = .err := by
  simp [tsv_setter_aa1, h]

/-- Evaluation of `tsv_setter_aa1` on a one-character non-marker token. -/
lemma aa1_single (c0 : Char) (st : SiteState) (ref : Nat)
    (h0 : ¬ c0 = '-') (h1 : ¬ c0 = 'I') (h2 : ¬ c0 = 'D') :
    tsv_setter_aa1 [c0] st ref =
      (let a0 := acgt_to_5 c0.toUpper
       let st1 := assignAllele (assignAllele st a0) a0
       .ok { st1 with cnt := bumpCounter st1.cnt ref a0 a0 }
          (bcf_gt_unphased (getAl st1.alleles a0)) bcf_int32_vector_end) := by
  simp [tsv_setter_aa1, h0, h1, h2]

/-- Evaluation of `tsv_setter_aa1` on a two-character token whose first
character is not a marker. -/
lemma aa1_double (c0 c1 : Char) (st : SiteState) (ref : Nat)
    (h0 : ¬ c0 = '-') (h1 : ¬ c0 = 'I') (h2 : ¬ c0 = 'D') :
    tsv_setter_aa1 [c0, c1] st ref =
      (let a0 := acgt_to_5 c0.toUpper
       let a1 := acgt_to_5 c1.toUpper
       let st1 := assignAllele (assignAllele st a0) a1
       .ok { st1 with cnt := bumpCounter st1.cnt ref a0 a1 }
          (bcf_gt_unphased (getAl st1.alleles a0))
          (bcf_gt_unphased (getAl st1.alleles a1))) := by
  simp [tsv_setter_aa1, h0, h1, h2]

/-- A successful `tsv_setter_aa1` call came from a 1–2 character token
whose first character is not a gap/indel/no-call marker. -/
lemma aa1_ok_cases {tok : List Char} {st st1 : SiteState} {ref : Nat} {g0 g1 : Int}
    (h : tsv_setter_aa1 tok st ref = .ok st1 g0 g1) :
    ∃ c0 rest, tok = c0 :: rest ∧ rest.length ≤ 1
      ∧ ¬ c0 = '-' ∧ ¬ c0 = 'I' ∧ ¬ c0 = 'D' := by
  rcases tok with _ | ⟨c0, rest⟩
  · simp [tsv_setter_aa1] at h
  · by_cases hl : 2 < (c0 :: rest).length
    · rw [aa1_err_of_long hl] at h; exact Aa1Out.noConfusion h
    · by_cases m0 : c0 = '-'
      · simp only [tsv_setter_aa1, m0] at h
        split at h <;> exact Aa1Out.noConfusion h
      · by_cases m1 : c0 = 'I'
        · simp only [tsv_setter_aa1, m1, if_neg m0] at h
          split at h <;> exact Aa1Out.noConfusion h
        · by_cases m2 : c0 = 'D'
          · simp only [tsv_setter_aa1, m2, if_neg m0, if_neg m1] at h
            split at h <;> exact Aa1Out.noConfusion h
          · refine ⟨c0, rest, rfl, ?_, m0, m1, m2⟩
            simp only [List.length_cons] at hl; omega

/-- Scanning a comma-free string finds no split point. -/
lemma splitAtComma_no_comma : ∀ (s : List Char), (',' ∈ s → False) →
    splitAtComma s = none := by
  intro s
  induction s with
  | nil => intro _; rfl
  | cons c t ih =>
    intro h
    have hc : ¬ c = ',' := fun e => h (by simp [e])
    rw [splitAtComma, if_neg hc, ih (fun m => h (List.mem_cons_of_mem _ m))]

/-- Scanning splits at the first comma. -/
lemma splitAtComma_first : ∀ (g smp : List Char), (',' ∈ g → False) →
    splitAtComma (g ++ ',' :: smp) = some (g, smp) := by
  intro g
  induction g with
  | nil => intro smp _; simp [splitAtComma]
  | cons c t ih =>
    intro smp h
    have hc : ¬ c = ',' := fun e => h (by simp [e])
    rw [List.cons_append, splitAtComma, if_neg hc,
      ih smp (fun m => h (List.mem_cons_of_mem _ m))]

/-- Nat bit facts for the two polarity bits, by exhausting the values the
`filter_logic` field can take. -/
lemma or_one_lt4 (x : Nat) (h : x < 4) : x ||| 1 < 4 := by
  interval_cases x <;> decide

/-- The `FLT_EXCLUDE` OR keeps the field below 4. -/
lemma or_two_lt4 (x : Nat) (h : x < 4) : x ||| 2 < 4 := by
  interval_cases x <;> decide

/-- ORing in `FLT_EXCLUDE` sets the exclude bit. -/
lemma or_two_and_two (x : Nat) (h : x < 4) : (x ||| 2) &&& 2 ≠ 0 := by
  interval_cases x <;> decide

/-- ORing in `FLT_INCLUDE` leaves the exclude bit unchanged. -/
lemma or_one_and_two (x : Nat) (h : x < 4) : (x ||| 1) &&& 2 = x &&& 2 := by
  interval_cases x <;> decide

/-- Option processing keeps `filter_logic` below 4. -/
lemma applyOpt_logic_lt4 (a : FilterArgs) (o : Opt) (h : a.filter_logic < 4) :
    (applyOpt a o).filter_logic < 4 := by
  cases o with
  | optInclude s => simpa [applyOpt, FLT_INCLUDE] using or_one_lt4 a.filter_logic h
  | optExclude s => simpa [applyOpt, FLT_EXCLUDE] using or_two_lt4 a.filter_logic h
  | optOther => exact h

/-- The whole option fold keeps `filter_logic` below 4. -/
lemma foldl_logic_lt4 : ∀ (opts : List Opt) (a : FilterArgs), a.filter_logic < 4 →
    (opts.foldl applyOpt a).filter_logic < 4 := by
  intro opts
  induction opts with
  | nil => intro a h; simpa using h
  | cons o os ih => intro a h; simpa using ih (applyOpt a o) (applyOpt_logic_lt4 a o h)

/-- Once an exclude option occurs (or the bit is already set), the folded
`filter_logic` has the exclude bit set. -/
lemma foldl_excl_bit : ∀ (opts : List Opt) (a : FilterArgs), a.filter_logic < 4 →
    ((∃ s, Opt.optExclude s ∈ opts) ∨ a.filter_logic &&& 2 ≠ 0) →
    (opts.foldl applyOpt a).filter_logic &&& 2 ≠ 0 := by
  intro opts
  induction opts with
  | nil =>
    rintro a h (⟨s, hs⟩ | hbit)
    · simp at hs
    · simpa using hbit
  | cons o os ih =>
    rintro a h hmem
    rw [List.foldl_cons]
    apply ih (applyOpt a o) (applyOpt_logic_lt4 a o h)
    rcases hmem with ⟨s, hs⟩ | hbit
    · rcases List.mem_cons.mp hs with heq | hmem2
      · right
        rw [← heq]
        simpa [applyOpt, FLT_EXCLUDE] using or_two_and_two a.filter_logic h
      · exact Or.inl ⟨s, hmem2⟩
    · right
      cases o with
      | optInclude s2 =>
        simpa [applyOpt, FLT_INCLUDE, or_one_and_two a.filter_logic h] using hbit
      | optExclude s2 =>
        simpa [applyOpt, FLT_EXCLUDE] using or_two_and_two a.filter_logic h
      | optOther => simpa [applyOpt] using hbit

/-- Folding over options that carry no expression leaves `filter_str`
unchanged. -/
lemma foldl_str_none : ∀ (opts : List Opt) (a : FilterArgs),
    (∀ o ∈ opts, exprStr? o = none) → (opts.foldl applyOpt a).filter_str = a.filter_str := by
  intro opts
  induction opts with
  | nil => intro a _; rfl
  | cons o os ih =>
    intro a h
    rw [List.foldl_cons, ih (applyOpt a o) (fun o2 h2 => h o2 (List.mem_cons_of_mem _ h2))]
    cases o with
    | optInclude s => exact absurd (h _ (List.mem_cons_self _ _)) (by simp [exprStr?])
    | optExclude s => exact absurd (h _ (List.mem_cons_self _ _)) (by simp [exprStr?])
    | optOther => rfl

/-- A list with a duplicate strictly shrinks under `dedup`. -/
lemma dedup_length_lt {α : Type} [DecidableEq α] (l : List α) (h : ¬ l.Nodup) :
    l.dedup.length < l.length := by
  have hsub := List.dedup_sublist l
  rcases lt_or_eq_of_le hsub.length_le with hlt | heq
  · exact hlt
  · exact absurd ((hsub.eq_of_length heq) ▸ List.nodup_dedup l) h

/-- Restricting a duplicate-free header to the names of `req` (all of
which occur in the header) keeps exactly the distinct names of `req`. -/
lemma restricted_perm_dedup (header req : List String) (hnd : header.Nodup)
    (hsub : ∀ s ∈ req, s ∈ header) :
    (header.filter (fun s => decide (s ∈ req))).Perm req.dedup := by
  apply (List.perm_ext_iff_of_nodup (hnd.filter _) (List.nodup_dedup req)).mpr
  intro x
  rw [List.mem_filter, List.mem_dedup]
  simp only [decide_eq_true_eq]
  exact ⟨fun h => h.2, fun h => ⟨hsub x h, h⟩⟩

/-- A concatenation whose first part satisfies `p` and whose second part
does not is recovered by filtering for `p` and against `p`. -/
lemma filter_split_append {α : Type} (p : α → Bool) (A B : List α)
    (hA : ∀ x ∈ A, p x = true) (hB : ∀ x ∈ B, p x = false) :
    A ++ B = (A ++ B).filter p ++ (A ++ B).filter (fun e => !(p e)) := by
  rw [List.filter_append, List.filter_append,
    List.filter_eq_self.mpr hA,
    List.filter_eq_nil_iff.mpr (fun a ha => by simp [hB a ha]),
    List.filter_eq_nil_iff.mpr (fun a ha => by simp [hA a ha]),
    List.filter_eq_self.mpr (fun a ha => by simp [hB a ha]),
    List.append_nil, List.nil_append]

/-- Filtering with `filterMap` ignores elements on which the partial map
is `none`, so pre-filtering them away changes nothing. -/
lemma filterMap_filter_of_none {α β : Type} (p : α → Option β) (q : α → Bool)
    (h : ∀ x, q x = false → p x = none) :
    ∀ l : List α, l.filterMap p = (l.filter q).filterMap p := by
  intro l
  induction l with
  | nil => rfl
  | cons a l ih =>
    cases hq : q a
    · rw [List.filter_cons_of_neg (by simp [hq]), List.filterMap_cons, h a hq, ih]
    · rw [List.filter_cons_of_pos hq, List.filterMap_cons, List.filterMap_cons, ih]

/-! ## Allele-table invariants (for the emission claim) -/

/-- Base codes are always below 5. -/
lemma acgt_lt5 (c : Char) : acgt_to_5 c < 5 := by
  unfold acgt_to_5
  split_ifs <;> omega

/-- Reading back a slot just written. -/
lemma getAl_setAl_self (t : AlleleTab) (a : Nat) (v : Int) (h : a < 5) :
    getAl (setAl t a v) a = v := by
  interval_cases a <;> rfl

/-- Writing one slot leaves the others unchanged. -/
lemma getAl_setAl_ne (t : AlleleTab) (a i : Nat) (v : Int) (ha : a < 5) (hi : i < 5)
    (hne : ¬ i = a) : getAl (setAl t a v) i = getAl t i := by
  interval_cases a <;> interval_cases i <;> first | rfl | exact absurd rfl hne

/-- `assignAllele` on an unassigned slot writes the next index. -/
lemma assign_eq_of_neg (st : SiteState) (a : Nat) (h : getAl st.alleles a < 0) :
    assignAllele st a
      = { st with
          alleles := setAl st.alleles a (Int.ofNat st.nals)
          nals := st.nals + 1 } := by
  unfold assignAllele
  rw [if_pos h]

/-- `assignAllele` on an already-assigned slot is the identity. -/
lemma assign_eq_of_nonneg (st : SiteState) (a : Nat) (h : ¬ getAl st.alleles a < 0) :
    assignAllele st a = st := by
  unfold assignAllele
  rw [if_neg h]

/-- `assignAllele` never decreases `nals`. -/
lemma assign_nals_ge (st : SiteState) (a : Nat) : st.nals ≤ (assignAllele st a).nals := by
  unfold assignAllele
  split
  · show st.nals ≤ st.nals + 1
    omega
  · exact le_refl _

/-- `assignAllele` at another slot does not change slot `i`. -/
lemma assign_getAl_ne (st : SiteState) (a i : Nat) (ha : a < 5) (hi : i < 5)
    (hne : ¬ i = a) : getAl (assignAllele st a).alleles i = getAl st.alleles i := by
  unfold assignAllele
  split
  · exact getAl_setAl_ne st.alleles a i _ ha hi hne
  · rfl

/-- `assignAllele` keeps a non-negative slot non-negative. -/
lemma assign_getAl_nonneg (st : SiteState) (a j : Nat) (ha : a < 5) (hj : j < 5)
    (h : 0 ≤ getAl st.alleles j) : 0 ≤ getAl (assignAllele st a).alleles j := by
  by_cases he : j = a
  · subst he
    unfold assignAllele
    rw [if_neg (not_lt.mpr h)]
    exact h
  · rw [assign_getAl_ne st a j ha hj he]
    exact h

/-- The invariant `tsv_setter_aa` maintains on its per-site state: `nals`
stays positive, the reference slot keeps its non-negative index, and a
non-reference slot holds a positive index exactly when its base code is
in the observed list `S` (and a negative value otherwise). -/
def tabSpec (iref : Nat) (S : List Nat) (st : SiteState) : Prop :=
  1 ≤ st.nals ∧ 0 ≤ getAl st.alleles iref
  ∧ ∀ i, i < 5 → ¬ i = iref →
      (if i ∈ S then 0 < getAl st.alleles i else getAl st.alleles i < 0)

/-- The two allele assignments of one decoded call extend the observed
list by the call's two base codes. -/
lemma double_assign_tabSpec (st : SiteState) (a0 a1 iref : Nat) (S : List Nat)
    (h0 : a0 < 5) (h1 : a1 < 5) (href : iref < 5)
    (hspec : tabSpec iref S st) :
    tabSpec iref (S ++ [a0, a1]) (assignAllele (assignAllele st a0) a1) := by
  obtain ⟨hnals, hiref, hent⟩ := hspec
  have hnals1 : 1 ≤ (assignAllele st a0).nals := le_trans hnals (assign_nals_ge st a0)
  have hpos_of_entry : ∀ j, j < 5 → ¬ j = iref → 0 ≤ getAl st.alleles j →
      0 < getAl st.alleles j := by
    intro j hj hne hge
    have := hent j hj hne
    by_cases hm : j ∈ S
    · rw [if_pos hm] at this
      exact this
    · rw [if_neg hm] at this
      omega
  refine ⟨le_trans hnals1 (assign_nals_ge _ a1), ?_, ?_⟩
  · exact assign_getAl_nonneg _ a1 iref h1 href
      (assign_getAl_nonneg st a0 iref h0 href hiref)
  · intro i hi hne
    have hpos_first : 0 < getAl (assignAllele st a0).alleles i
        ∨ (¬ i = a0 ∧ getAl (assignAllele st a0).alleles i = getAl st.alleles i) := by
      by_cases e0 : i = a0
      · subst e0
        left
        by_cases hlt0 : getAl st.alleles i < 0
        · rw [assign_eq_of_neg _ _ hlt0]
          show 0 < getAl (setAl st.alleles i (Int.ofNat st.nals)) i
          rw [getAl_setAl_self _ _ _ hi]
          exact Int.ofNat_pos.mpr hnals
        · rw [assign_eq_of_nonneg _ _ hlt0]
          exact hpos_of_entry i hi hne (not_lt.mp hlt0)
      · right
        exact ⟨e0, assign_getAl_ne st a0 i h0 hi e0⟩
    by_cases e1 : i = a1
    · rw [if_pos (by simp [e1])]
      subst e1
      by_cases hlt : getAl (assignAllele st a0).alleles i < 0
      · rw [assign_eq_of_neg _ _ hlt]
        show 0 < getAl (setAl (assignAllele st a0).alleles i
          (Int.ofNat (assignAllele st a0).nals)) i
        rw [getAl_setAl_self _ _ _ hi]
        exact Int.ofNat_pos.mpr hnals1
      · rw [assign_eq_of_nonneg _ _ hlt]
        rcases hpos_first with hp | ⟨e0, heq⟩
        · exact hp
        · rw [heq] at hlt ⊢
          exact hpos_of_entry i hi hne (not_lt.mp hlt)
    · have hX : getAl (assignAllele (assignAllele st a0) a1).alleles i
          = getAl (assignAllele st a0).alleles i :=
        assign_getAl_ne _ a1 i h1 hi e1
      by_cases e0 : i = a0
      · rw [if_pos (by simp [e0])]
        rw [hX]
        rcases hpos_first with hp | ⟨e0x, -⟩
        · exact hp
        · exact absurd e0 e0x
      · have hst : getAl (assignAllele (assignAllele st a0) a1).alleles i
            = getAl st.alleles i := by
          rw [hX, assign_getAl_ne st a0 i h0 hi e0]
        have hmem : (i ∈ S ++ [a0, a1]) ↔ i ∈ S := by
          simp [e0, e1]
        by_cases hm : i ∈ S
        · rw [if_pos (hmem.mpr hm), hst]
          have := hent i hi hne
          rwa [if_pos hm] at this
        · rw [if_neg (fun hc => hm (hmem.mp hc)), hst]
          have := hent i hi hne
          rwa [if_neg hm] at this

/-- A successfully decoded call extends the table invariant by the
token's two base codes. -/
lemma aa1_ok_tabSpec {tok : List Char} {st st1 : SiteState} {iref : Nat}
    {g0 g1 : Int} {S : List Nat} (href : iref < 5) (hspec : tabSpec iref S st)
    (h : tsv_setter_aa1 tok st iref = .ok st1 g0 g1) :
    tabSpec iref (S ++ tokenCodes tok) st1 := by
  obtain ⟨c0, rest, rfl, hr, m0, m1, m2⟩ := aa1_ok_cases h
  rcases rest with _ | ⟨c1, rs⟩
  · rw [aa1_single c0 st iref m0 m1 m2] at h
    simp only [Aa1Out.ok.injEq] at h
    have hd := double_assign_tabSpec st (acgt_to_5 c0.toUpper) (acgt_to_5 c0.toUpper)
        iref S (acgt_lt5 _) (acgt_lt5 _) href hspec
    rw [← h.1]
    simpa [tabSpec, tokenCodes] using hd
  · have hrs : rs = [] := by
      rcases rs with _ | ⟨x, xs⟩
      · rfl
      · simp at hr
    subst hrs
    rw [aa1_double c0 c1 st iref m0 m1 m2] at h
    simp only [Aa1Out.ok.injEq] at h
    have hd := double_assign_tabSpec st (acgt_to_5 c0.toUpper) (acgt_to_5 c1.toUpper)
        iref S (acgt_lt5 _) (acgt_lt5 _) href hspec
    rw [← h.1]
    simpa [tabSpec, tokenCodes] using hd

/-- Running the whole per-sample loop to completion records exactly the
base codes observed across the decoded tokens. -/
lemma scan_all_tabSpec : ∀ (n : Nat) (toks : List (List Char)) (st : SiteState)
    (iref : Nat) (S : List Nat) (stF : SiteState) (gts : List (Int × Int)),
    iref < 5 → tabSpec iref S st →
    scanSamples n toks st iref = .all stF gts →
    tabSpec iref (S ++ obsCodes n toks) stF := by
  intro n
  induction n with
  | zero =>
    intro toks st iref S stF gts _ hspec h
    simp only [scanSamples, ScanOut.all.injEq] at h
    rw [← h.1]
    simpa [obsCodes] using hspec
  | succ n ih =>
    intro toks st iref S stF gts href hspec h
    rcases toks with _ | ⟨t, ts⟩
    · simp [scanSamples] at h
    · cases haa : tsv_setter_aa1 t st iref with
      | err => simp [scanSamples, haa] at h
      | skipSite => simp [scanSamples, haa] at h
      | ok st1 g0 g1 =>
        cases hs : scanSamples n ts st1 iref with
        | fatal => simp [scanSamples, haa, hs] at h
        | gap stG => simp [scanSamples, haa, hs] at h
        | all stF2 gs =>
          simp only [scanSamples, haa, hs, ScanOut.all.injEq] at h
          have hstep := aa1_ok_tabSpec href hspec haa
          have hfin := ih ts st1 iref (S ++ tokenCodes t) stF2 gs href hstep hs
          rw [← h.1]
          simpa [obsCodes, List.append_assoc] using hfin

/-- The initial site state satisfies the invariant with nothing observed. -/
lemma init_tabSpec (cnt : Counters) (iref : Nat) (href : iref < 5) :
    tabSpec iref [] (initSiteState cnt iref) := by
  refine ⟨le_refl 1, ?_, ?_⟩
  · show (0:Int) ≤ getAl (setAl { fA := -1, fC := -1, fG := -1, fT := -1, fN := -1 } iref 0) iref
    rw [getAl_setAl_self _ _ _ href]
  · intro i hi hne
    rw [if_neg (by simp)]
    show getAl (setAl { fA := -1, fC := -1, fG := -1, fT := -1, fN := -1 } iref 0) i < 0
    rw [getAl_setAl_ne _ _ _ _ href hi hne]
    interval_cases i <;> decide

/-- The emitted allele string starts with the uppercased reference base. -/
lemma emit_head (refU : Char) (t : AlleleTab) : (emitAlleles refU t).head? = some refU := rfl

/-- The nth base character differs from any character with another code. -/
lemma alleleChar_ne_of_code_ne (i : Nat) (hi : i < 5) (r : Char)
    (h : ¬ i = acgt_to_5 r) : ¬ alleleChars.getD i '?' = r := by
  intro he
  apply h
  interval_cases i <;> simp [alleleChars] at he <;> rw [← he] <;> rfl

/-- Membership of a base character in the emitted allele string mirrors a
positive table entry (provided the character is not the reference head). -/
lemma mem_emit_iff (refU : Char) (t : AlleleTab) (i : Nat) (hi : i < 5)
    (hne : ¬ alleleChars.getD i '?' = refU) :
    (alleleChars.getD i '?' ∈ emitAlleles refU t) ↔ 0 < getAl t i := by
  interval_cases i <;>
    simp only [alleleChars, List.getD_cons_zero, List.getD_cons_succ] at hne ⊢ <;>
    simp only [emitAlleles, getAl, List.mem_cons, List.mem_append] <;>
    split_ifs <;> simp_all

/-- The emitted alleles after the reference head are in strictly
increasing base-code order. -/
lemma emit_tail_sorted (refU : Char) (t : AlleleTab) :
    List.Pairwise (fun a b => acgt_to_5 a < acgt_to_5 b)
      (((emitAlleles refU t).drop 1).filter (fun ch => ch != ',')) := by
  show List.Pairwise _ ((List.drop 1 (refU :: _)).filter _)
  rw [List.drop_succ_cons, List.drop_zero]
  split_ifs <;> decide

/-! ## Claim theorems -/

/-- C1 (code bug evidence): on the spec's own scenario — reference base
`C`, four sample calls `CC CA AA --` — the gap marker in the fourth call
makes `tsv_setter_aa1` return `-2`, but `tsv_setter_aa` converts that
into the return value `0` (modelled by `RowOutcome.written`), so the
driver loop writes an output record (one whose alleles and genotypes were
never set, `update = none`) and the `skipped` counter stays `0` (only
`total` is incremented).  The claim — and the code's own "skip these"
comments — say the row should be counted as skipped with no record
produced. -/
theorem gap_row_written_not_skipped_c1 :
    processRow 'C' 4 [['C','C'], ['C','A'], ['A','A'], ['-','-']] ⟨0,0,0,0,0,0⟩
      = .written ⟨1,0,1,1,1,0⟩ none := by decide

/-- C2 (counterexample): reference base `A` with sample calls `NN` and
`CC`.  The "unknown" base N is assigned allele index 1 and C index 2, yet
the emitted allele list is `A,C,N`: the N bucket *is* written out, and
the emission order is the fixed base order A,C,G,T,N, not the increasing
assigned-index (first-seen) order, which would be `A,N,C`. -/
theorem allele_emission_counterexample_c2 :
    tsv_setter_aa 'A' 2 [['N','N'], ['C','C']] ⟨0,0,0,0,0,0⟩
      = .ret0 ⟨0,0,0,0,2,0⟩
          (some { allelesStr := ['A',',','C',',','N'], gts := [(4,4),(6,6)] })
    ∧ scanSamples 2 [['N','N'], ['C','C']] (initSiteState ⟨0,0,0,0,0,0⟩ 0) 0
      = .all { alleles := { fA := 0, fC := 2, fG := -1, fT := -1, fN := 1 }
             , nals := 3, cnt := ⟨0,0,0,0,2,0⟩ } [(4,4),(6,6)]
    ∧ 'N' ∈ (['A',',','C',',','N'] : List Char) := by
  exact ⟨by decide, by decide, by decide⟩

/-- C2 (amended): for every completed tabular site, the emitted allele
list is the uppercased reference base at index 0 followed by exactly
those bases (including the "unknown" N bucket) that were observed in the
sample calls and differ from the reference bucket — membership of a base
character in the emitted string coincides with its code occurring among
the decoded calls — and the bases after the reference are listed in
strictly increasing base-code order A,C,G,T,N (not in first-seen
assigned-index order). -/
theorem allele_emission_c2 :
    ∀ (refBase : Char) (n : Nat) (toks : List (List Char)) (cnt c : Counters)
      (rec : AaRecord),
    tsv_setter_aa refBase n toks cnt = .ret0 c (some rec) →
    rec.allelesStr.head? = some refBase.toUpper
    ∧ (∀ i, i < 5 → ¬ i = acgt_to_5 refBase.toUpper →
        ((alleleChars.getD i '?' ∈ rec.allelesStr) ↔ i ∈ obsCodes n toks))
    ∧ List.Pairwise (fun a b => acgt_to_5 a < acgt_to_5 b)
        ((rec.allelesStr.drop 1).filter (fun ch => ch != ',')) := by
  intro refBase n toks cnt c rec h
  simp only [tsv_setter_aa] at h
  cases hs : scanSamples n toks (initSiteState cnt (acgt_to_5 refBase.toUpper))
      (acgt_to_5 refBase.toUpper) with
  | fatal => simp [hs] at h
  | gap st => simp [hs] at h
  | all st gts =>
    simp only [hs, AaOut.ret0.injEq, Option.some.injEq] at h
    obtain ⟨hc, hrec⟩ := h
    subst hrec
    refine ⟨emit_head _ _, ?_, emit_tail_sorted _ _⟩
    intro i hi hne
    have hspec := scan_all_tabSpec n toks _ (acgt_to_5 refBase.toUpper) [] st gts
      (acgt_lt5 _) (init_tabSpec cnt _ (acgt_lt5 _)) hs
    obtain ⟨-, -, hent⟩ := hspec
    have h2 := hent i hi hne
    rw [List.nil_append] at h2
    show (alleleChars.getD i '?' ∈ emitAlleles refBase.toUpper st.alleles)
      ↔ i ∈ obsCodes n toks
    rw [mem_emit_iff refBase.toUpper st.alleles i hi
      (alleleChar_ne_of_code_ne i hi _ hne)]
    constructor
    · intro hpos
      by_cases hm : i ∈ obsCodes n toks
      · exact hm
      · rw [if_neg hm] at h2
        omega
    · intro hm
      rw [if_pos hm] at h2
      exact h2

/-- C2 (witness): the amended theorem at the spec's scenario — reference
`C`, calls `CC CA AA` — whose emitted allele string is `C,A`: the head is
the reference and the A bucket's membership matches its observation. -/
theorem allele_emission_c2_witness :
    ((['C', ',', 'A'] : List Char).head? = some ('C'.toUpper))
    ∧ ((alleleChars.getD 0 '?' ∈ (['C', ',', 'A'] : List Char))
        ↔ 0 ∈ obsCodes 3 [['C','C'], ['C','A'], ['A','A']]) := by
  have h := allele_emission_c2 'C' 3 [['C','C'], ['C','A'], ['A','A']]
    ⟨0,0,0,0,0,0⟩ ⟨0,0,1,1,1,0⟩
    { allelesStr := ['C', ',', 'A'], gts := [(2,2),(2,4),(4,4)] }
    (by decide)
  exact ⟨h.1, h.2.1 0 (by decide) (by decide)⟩

/-- C3 (counterexample): decoding the single-character token `A` at a
site whose reference is `A` writes `bcf_gt_unphased(0)` into the first
genotype position but the `bcf_int32_vector_end` sentinel — not the same
allele index — into the second, so the emitted call is haploid rather
than a homozygous diploid call. -/
theorem single_token_haploid_counterexample_c3 :
    tsv_setter_aa1 ['A']
        { alleles := { fA := 0, fC := -1, fG := -1, fT := -1, fN := -1 }
        , nals := 1, cnt := ⟨0,0,0,0,0,0⟩ } 0
      = .ok { alleles := { fA := 0, fC := -1, fG := -1, fT := -1, fN := -1 }
            , nals := 1, cnt := ⟨0,0,1,0,0,0⟩ }
          (bcf_gt_unphased 0) bcf_int32_vector_end
    ∧ bcf_int32_vector_end ≠ bcf_gt_unphased 0 := by
  exact ⟨by decide, by decide⟩

/-- C3 (amended): a single-character non-marker token resolves both base
codes to the same code — so the genotype-class tally treats it as
homozygous — but writes only the first genotype position with the allele
index of its character; the second position receives the
`bcf_int32_vector_end` sentinel (a haploid call).  A two-character token
writes the two positions directly, in the order given with no canonical
sorting: position 0 holds the allele index of the first character and
position 1 the allele index of the second, both in the unphased encoding
(low bit 0). -/
theorem token_decoding_gts_c3 :
    ∀ (c0 c1 : Char) (st st1 st2 : SiteState) (ref : Nat) (e0 e1 f0 f1 : Int),
    (tsv_setter_aa1 [c0] st ref = .ok st1 e0 e1 →
       e0 = bcf_gt_unphased (getAl st1.alleles (acgt_to_5 c0.toUpper))
       ∧ e1 = bcf_int32_vector_end
       ∧ st1.cnt = bumpCounter st.cnt ref (acgt_to_5 c0.toUpper) (acgt_to_5 c0.toUpper))
    ∧ (tsv_setter_aa1 [c0, c1] st ref = .ok st2 f0 f1 →
       f0 = bcf_gt_unphased (getAl st2.alleles (acgt_to_5 c0.toUpper))
       ∧ f1 = bcf_gt_unphased (getAl st2.alleles (acgt_to_5 c1.toUpper))
       ∧ f0 % 2 = 0 ∧ f1 % 2 = 0
       ∧ st2.cnt = bumpCounter st.cnt ref (acgt_to_5 c0.toUpper) (acgt_to_5 c1.toUpper)) := by
  intro c0 c1 st st1 st2 ref e0 e1 f0 f1
  constructor
  · intro h
    obtain ⟨c0x, restx, heq, -, m0, m1, m2⟩ := aa1_ok_cases h
    injection heq with hc hr
    subst hc
    rw [aa1_single c0 st ref m0 m1 m2] at h
    simp only [Aa1Out.ok.injEq] at h
    obtain ⟨hst, hg0, hg1⟩ := h
    subst hst
    refine ⟨hg0.symm, hg1.symm, ?_⟩
    show bumpCounter (assignAllele (assignAllele st _) _).cnt ref _ _ = _
    rw [assignAllele_cnt, assignAllele_cnt]
  · intro h
    obtain ⟨c0x, restx, heq, -, m0, m1, m2⟩ := aa1_ok_cases h
    injection heq with hc hr
    subst hc
    rw [aa1_double c0 c1 st ref m0 m1 m2] at h
    simp only [Aa1Out.ok.injEq] at h
    obtain ⟨hst, hg0, hg1⟩ := h
    subst hst
    refine ⟨hg0.symm, hg1.symm, ?_, ?_, ?_⟩
    · rw [← hg0]; unfold bcf_gt_unphased; omega
    · rw [← hg1]; unfold bcf_gt_unphased; omega
    · show bumpCounter (assignAllele (assignAllele st _) _).cnt ref _ _ = _
      rw [assignAllele_cnt, assignAllele_cnt]

/-- C3 (witness): the amended theorem applied to the concrete tokens `A`
(single character, reference `A`) and `CA` (two characters): the
single-character call is haploid with a hom-ref tally, and `CA` keeps the
given order (first position allele 1, second position allele 0). -/
theorem token_decoding_gts_c3_witness :
    ((4 : Int) = bcf_gt_unphased 1 ∧ (2 : Int) = bcf_gt_unphased 0)
    ∧ (⟨0,0,0,1,0,0⟩ : Counters) = bumpCounter ⟨0,0,0,0,0,0⟩ 0 1 0 := by
  have h := (token_decoding_gts_c3 'C' 'A'
      { alleles := { fA := 0, fC := -1, fG := -1, fT := -1, fN := -1 }
      , nals := 1, cnt := ⟨0,0,0,0,0,0⟩ }
      { alleles := { fA := 0, fC := -1, fG := -1, fT := -1, fN := -1 }
      , nals := 1, cnt := ⟨0,0,1,0,0,0⟩ }
      { alleles := { fA := 0, fC := 1, fG := -1, fT := -1, fN := -1 }
      , nals := 2, cnt := ⟨0,0,0,1,0,0⟩ } 0 2 bcf_int32_vector_end 4 2).2 (by decide)
  exact ⟨⟨h.1, h.2.1⟩, h.2.2.2.2⟩

/-- C4: the genotype-class tally is a pure function of the two resolved
base codes and the reference code; exactly one of the four class counters
increments per decoded call (the class total rises by exactly one), the
bucket is the one the claim describes in each of the four mutually
exclusive, exhaustive cases, and every successful `tsv_setter_aa1` call
updates the counters exactly through this function applied to the token's
two resolved codes. -/
theorem tally_four_buckets_c4 : ∀ (c : Counters) (ref a0 a1 : Nat),
    cntClassTotal (bumpCounter c ref a0 a1) = cntClassTotal c + 1
    ∧ (ref = a0 ∧ ref = a1 →
        bumpCounter c ref a0 a1 = { c with hom_rr := c.hom_rr + 1 })
    ∧ ((ref = a0 ∧ ¬ ref = a1) ∨ (ref = a1 ∧ ¬ ref = a0) →
        bumpCounter c ref a0 a1 = { c with het_ra := c.het_ra + 1 })
    ∧ (¬ ref = a0 ∧ ¬ ref = a1 ∧ a0 = a1 →
        bumpCounter c ref a0 a1 = { c with hom_aa := c.hom_aa + 1 })
    ∧ (¬ ref = a0 ∧ ¬ ref = a1 ∧ ¬ a0 = a1 →
        bumpCounter c ref a0 a1 = { c with het_aa := c.het_aa + 1 })
    ∧ (∀ (tok : List Char) (st st1 : SiteState) (g0 g1 : Int),
        tsv_setter_aa1 tok st ref = .ok st1 g0 g1 →
        ∃ b0 b1, tokenCodes tok = [b0, b1]
          ∧ st1.cnt = bumpCounter st.cnt ref b0 b1) := by
  intro c ref a0 a1
  refine ⟨?_, ?_, ?_, ?_, ?_, ?_⟩
  · simp only [bumpCounter, cntClassTotal]
    split_ifs <;> simp <;> omega
  · rintro ⟨h1, h2⟩; subst h1; subst h2; simp [bumpCounter]
  · rintro (⟨h1, h2⟩ | ⟨h1, h2⟩)
    · subst h1; simp [bumpCounter, h2]
    · subst h1; simp [bumpCounter, h2]
  · rintro ⟨h1, h2, h3⟩; subst h3; simp [bumpCounter, h1]
  · rintro ⟨h1, h2, h3⟩; simp [bumpCounter, h1, h2, h3]
  · intro tok st st1 g0 g1 h
    obtain ⟨c0, rest, rfl, hr, m0, m1, m2⟩ := aa1_ok_cases h
    rcases rest with _ | ⟨c1, rs⟩
    · rw [aa1_single c0 st ref m0 m1 m2] at h
      simp only [Aa1Out.ok.injEq] at h
      refine ⟨acgt_to_5 c0.toUpper, acgt_to_5 c0.toUpper, by simp [tokenCodes], ?_⟩
      rw [← h.1]
      show bumpCounter (assignAllele (assignAllele st _) _).cnt ref _ _ = _
      rw [assignAllele_cnt, assignAllele_cnt]
    · have hrs : rs = [] := by
        rcases rs with _ | ⟨x, xs⟩
        · rfl
        · simp at hr
      subst hrs
      rw [aa1_double c0 c1 st ref m0 m1 m2] at h
      simp only [Aa1Out.ok.injEq] at h
      refine ⟨acgt_to_5 c0.toUpper, acgt_to_5 c1.toUpper, by simp [tokenCodes], ?_⟩
      rw [← h.1]
      show bumpCounter (assignAllele (assignAllele st _) _).cnt ref _ _ = _
      rw [assignAllele_cnt, assignAllele_cnt]

/-- C4 (witness): the tally theorem applied at concrete codes — reference
0 with call codes (0, 1) lands in the het ref/alt bucket, the class total
rising by one. -/
theorem tally_four_buckets_c4_witness :
    cntClassTotal (bumpCounter ⟨0,0,0,0,0,0⟩ 0 0 1) = cntClassTotal ⟨0,0,0,0,0,0⟩ + 1
    ∧ bumpCounter ⟨0,0,0,0,0,0⟩ 0 0 1
        = { (⟨0,0,0,0,0,0⟩ : Counters) with het_ra := 0 + 1 } := by
  have h := tally_four_buckets_c4 ⟨0,0,0,0,0,0⟩ 0 0 1
  exact ⟨h.1, h.2.2.1 (Or.inl ⟨rfl, by decide⟩)⟩

/-- C5: a call token longer than two characters is rejected by
`tsv_setter_aa1` (return `-1`), which `tsv_setter_aa` escalates to a
fatal `error(...)` — the whole run aborts (`RowOutcome.fatal`), not a
per-record skip — while tokens of length 1 or 2 are never rejected by
this length check. -/
theorem long_token_fatal_c5 : ∀ (tok : List Char) (st : SiteState) (ref : Nat),
    (2 < tok.length → tsv_setter_aa1 tok st ref = .err)
    ∧ (tok.length = 1 ∨ tok.length = 2 → ¬ tsv_setter_aa1 tok st ref = .err)
    ∧ (∀ (refBase : Char) (ts : List (List Char)) (cnt : Counters) (n : Nat),
        2 < tok.length → processRow refBase (n + 1) (tok :: ts) cnt = .fatal) := by
  intro tok st ref
  refine ⟨fun h => aa1_err_of_long h, ?_, ?_⟩
  · intro h
    rcases tok with _ | ⟨c0, rest⟩
    · simp at h
    · have hl : ¬ 2 < (c0 :: rest).length := by omega
      intro heq
      simp only [tsv_setter_aa1, if_neg hl] at heq
      split_ifs at heq
  · intro refBase ts cnt n h
    simp [processRow, tsv_setter_aa, scanSamples, aa1_err_of_long h]

/-- C5 (witness): the length theorem at the concrete token `AAA`
(rejected, and fatal at row level) and at `A` (accepted by the check). -/
theorem long_token_fatal_c5_witness :
    tsv_setter_aa1 ['A','A','A']
        { alleles := { fA := 0, fC := -1, fG := -1, fT := -1, fN := -1 }
        , nals := 1, cnt := ⟨0,0,0,0,0,0⟩ } 0 = .err
    ∧ ¬ tsv_setter_aa1 ['A']
        { alleles := { fA := 0, fC := -1, fG := -1, fT := -1, fN := -1 }
        , nals := 1, cnt := ⟨0,0,0,0,0,0⟩ } 0 = .err
    ∧ processRow 'A' 1 [['A','A','A']] ⟨0,0,0,0,0,0⟩ = .fatal := by
  have h := long_token_fatal_c5 ['A','A','A']
      { alleles := { fA := 0, fC := -1, fG := -1, fT := -1, fN := -1 }
      , nals := 1, cnt := ⟨0,0,0,0,0,0⟩ } 0
  have h2 := long_token_fatal_c5 ['A']
      { alleles := { fA := 0, fC := -1, fG := -1, fT := -1, fN := -1 }
      , nals := 1, cnt := ⟨0,0,0,0,0,0⟩ } 0
  refine ⟨h.1 (by decide), h2.2.1 (by decide), ?_⟩
  have h3 := h.2.2 'A' [] ⟨0,0,0,0,0,0⟩ 0 (by decide)
  simpa using h3

/-- C8: the filter gate of `vcf_to_gensample` passes a site exactly when
the predicate evaluator returns true under include polarity
(`filter_logic = FLT_INCLUDE`), exactly when it returns false under
exclude polarity (`filter_logic = FLT_EXCLUDE`), and passes every site
when no predicate is configured. -/
theorem filter_gate_polarity_c8 : ∀ (f : Site → Bool) (logic : Nat) (line : Site),
    sitePass (some f) FLT_INCLUDE line = f line
    ∧ sitePass (some f) FLT_EXCLUDE line = !(f line)
    ∧ sitePass none logic line = true := by
  intro f logic line
  refine ⟨?_, ?_, rfl⟩
  · show (if FLT_INCLUDE &&& FLT_EXCLUDE ≠ 0 then !(f line) else f line) = f line
    rw [if_neg (by decide)]
  · show (if FLT_EXCLUDE &&& FLT_EXCLUDE ≠ 0 then !(f line) else f line) = !(f line)
    rw [if_pos (by decide)]

/-- C6: for an unnegated sample list, if the number of samples kept in
the restricted header differs from the length of the resolved sample list
(as happens when a duplicate name yields fewer distinct samples than
requested), `open_vcf` fails with the fatal "number of samples does not
match" error; whenever the stage succeeds, the restricted sample count
equals the resolved list's length — the sample set is never silently
truncated. -/
theorem sample_count_mismatch_fatal_c6 : ∀ (header req : List String),
    header.Nodup → (∀ s ∈ req, s ∈ header) →
    ((¬ (header.filter (fun s => decide (s ∈ req))).length = req.length →
        open_vcf_samples header req false = .fatalCountMismatch)
     ∧ (¬ req.Nodup → open_vcf_samples header req false = .fatalCountMismatch)
     ∧ (∀ (res : List String) (ord : Option (List Nat)),
          open_vcf_samples header req false = .okRes res ord →
          res.length = req.length)) := by
  intro header req hnd hsub
  have hname : ¬ req.any (fun s => !(decide (s ∈ header))) = true := by
    simp only [List.any_eq_true, Bool.not_eq_true', decide_eq_false_iff_not, not_exists]
    intro x
    simp only [not_and, not_not]
    exact hsub x
  have hfatal : ¬ (header.filter (fun s => decide (s ∈ req))).length = req.length →
      open_vcf_samples header req false = .fatalCountMismatch := by
    intro hne
    unfold open_vcf_samples
    rw [if_neg hname, if_neg (by simp), if_pos (fun e => hne e.symm)]
  refine ⟨hfatal, ?_, ?_⟩
  · intro hdup
    apply hfatal
    have hlen := (restricted_perm_dedup header req hnd hsub).length_eq
    have hlt := dedup_length_lt req hdup
    omega
  · intro res ord hok
    unfold open_vcf_samples at hok
    rw [if_neg hname, if_neg (by simp)] at hok
    by_cases hc : req.length ≠ (header.filter (fun s => decide (s ∈ req))).length
    · rw [if_pos hc] at hok
      exact SampleResolution.noConfusion hok
    · rw [if_neg hc] at hok
      simp only [SampleResolution.okRes.injEq] at hok
      rw [← hok.1]
      exact (not_not.mp hc).symm

/-- C6 (witness): the unnegated list `s1,s1` against the header
`s1 s2` — two names requested, one distinct sample kept — is the fatal
count-mismatch error. -/
theorem sample_count_mismatch_fatal_c6_witness :
    open_vcf_samples [("s1"), ("s2")] [("s1"), ("s1")] false = .fatalCountMismatch := by
  exact (sample_count_mismatch_fatal_c6 [("s1"), ("s2")] [("s1"), ("s1")]
    (by decide) (by decide)).2.1 (by decide)

/-- C9: in the variant-to-tabular direction, sites with a single allele
contribute nothing to the output trace (removing them from the input
leaves the event stream unchanged, and the per-site body maps them to no
write), and the whole sample-metadata stream — writes and close — occurs
before every genotype-stream event: the trace is exactly its
sample-stream part followed by its genotype-stream part. -/
theorem mono_site_skip_and_stream_order_c9 :
    ∀ (samples : List String) (filt : Option (Site → Bool)) (logic : Nat)
      (sites : List Site),
    vcf_to_gensample_events samples filt logic sites
      = vcf_to_gensample_events samples filt logic
          (sites.filter (fun l => decide (¬ l.n_allele = 1)))
    ∧ (∀ line : Site, line.n_allele = 1 → processSite filt logic line = none)
    ∧ vcf_to_gensample_events samples filt logic sites
      = (vcf_to_gensample_events samples filt logic sites).filter isSampleEv
        ++ (vcf_to_gensample_events samples filt logic sites).filter
            (fun e => !(isSampleEv e)) := by
  intro samples filt logic sites
  have hnone : ∀ line : Site, line.n_allele = 1 → processSite filt logic line = none := by
    intro line h
    simp [processSite, h]
  refine ⟨?_, hnone, ?_⟩
  · unfold vcf_to_gensample_events
    rw [← filterMap_filter_of_none (processSite filt logic)
      (fun l => decide (¬ l.n_allele = 1)) (fun x hx => hnone x (by simpa using hx)) sites]
  · have hsplit : vcf_to_gensample_events samples filt logic sites
        = ((sampleFileLines samples).map Ev.sampleWrite ++ [Ev.sampleClose])
          ++ ((sites.filterMap (processSite filt logic)).map Ev.genWrite
              ++ [Ev.genClose]) := by
      unfold vcf_to_gensample_events
      simp
    rw [hsplit]
    apply filter_split_append
    · intro x hx
      rcases List.mem_append.mp hx with hx | hx
      · obtain ⟨s, -, rfl⟩ := List.mem_map.mp hx
        rfl
      · simp only [List.mem_singleton] at hx
        subst hx
        rfl
    · intro x hx
      rcases List.mem_append.mp hx with hx | hx
      · obtain ⟨s, -, rfl⟩ := List.mem_map.mp hx
        rfl
      · simp only [List.mem_singleton] at hx
        subst hx
        rfl

/-- C9 (witness): the theorem's per-site clause at a concrete
single-allele site — it is never written to the genotype stream. -/
theorem mono_site_skip_c9_witness :
    processSite none 0 { n_allele := 1, conv := ['x'] } = none := by
  exact (mono_site_skip_and_stream_order_c9 [] none 0 []).2.1
    { n_allele := 1, conv := ['x'] } rfl

/-- C7 (counterexample): the specifier `a.GZ,b.samples` resolves the
genotype path to `a.GZ`, and the code enables compression for it (the
suffix test `strcasecmp(".gz", ...)` is case-insensitive), even though
`a.GZ` does not end in the literal `.gz` suffix the claim describes. -/
theorem gz_suffix_case_counterexample_c7 :
    (resolveOutSpec (("a.GZ,b.samples").toList)).is_compressed = true
    ∧ gzSuffixSpec (resolveOutSpec (("a.GZ,b.samples").toList)).gen_fname = false
    ∧ (resolveOutSpec (("a.GZ,b.samples").toList)).gen_fname = ("a.GZ").toList := by
  exact ⟨by decide, by decide, by decide⟩

/-- C7 (amended): with a comma in the output specifier, the genotype path
is the text before the first comma and the sample path the text after it,
with compression enabled exactly when the genotype path's last three
characters match `.gz` case-insensitively (the code uses `strcasecmp`);
with no comma, the genotype path is the specifier plus `.gen.gz`
(compressed) and the sample path the specifier plus `.samples`. -/
theorem output_spec_resolution_c7 : ∀ (g smp s : List Char),
    ((',' ∈ g → False) →
       resolveOutSpec (g ++ ',' :: smp)
         = { gen_fname := g, sample_fname := smp, is_compressed := endsWithGzCI g })
    ∧ ((',' ∈ s → False) →
       resolveOutSpec s
         = { gen_fname := s ++ (".gen.gz").toList
           , sample_fname := s ++ (".samples").toList
           , is_compressed := true }) := by
  intro g smp s
  constructor
  · intro h; rw [resolveOutSpec, splitAtComma_first g smp h]
  · intro h; rw [resolveOutSpec, splitAtComma_no_comma s h]

/-- C7 (witness): the resolution theorem applied to the spec's examples —
the bare prefix `out` and the pair `a.gen,b.samples` (whose genotype path
fails the `.gz` check, so compression is off). -/
theorem output_spec_resolution_c7_witness :
    resolveOutSpec (("out").toList)
      = { gen_fname := ("out.gen.gz").toList
        , sample_fname := ("out.samples").toList
        , is_compressed := true }
    ∧ resolveOutSpec (("a.gen,b.samples").toList)
      = { gen_fname := ("a.gen").toList
        , sample_fname := ("b.samples").toList
        , is_compressed := false } := by
  constructor
  · have h := (output_spec_resolution_c7 [] [] (("out").toList)).2 (by decide)
    exact h.trans (by decide)
  · have h := (output_spec_resolution_c7 (("a.gen").toList) (("b.samples").toList) []).1 (by decide)
    have e : ("a.gen,b.samples").toList = ("a.gen").toList ++ ',' :: ("b.samples").toList := by
      decide
    rw [e]
    exact h.trans (by decide)

/-- C10: when both an include and an exclude expression are supplied, the
accumulated `filter_logic` has the `FLT_EXCLUDE` bit set, so the filter
gate negates the evaluator's result for every site (exclude semantics);
and since each filter option overwrites `filter_str`, only the
last-supplied expression string is the one kept for evaluation. -/
theorem exclude_bit_wins_c10 : ∀ (opts : List Opt),
    ((∃ s, Opt.optInclude s ∈ opts) → (∃ s, Opt.optExclude s ∈ opts) →
       (parseOpts opts).filter_logic &&& FLT_EXCLUDE ≠ 0
       ∧ ∀ (f : Site → Bool) (line : Site),
           sitePass (some f) (parseOpts opts).filter_logic line = !(f line))
    ∧ (∀ (pre post : List Opt) (o : Opt) (s : String),
        exprStr? o = some s → (∀ o2 ∈ post, exprStr? o2 = none) →
        (parseOpts (pre ++ o :: post)).filter_str = some s) := by
  intro opts
  constructor
  · intro _ hexcl
    have hbit : (parseOpts opts).filter_logic &&& 2 ≠ 0 :=
      foldl_excl_bit opts { filter_str := none, filter_logic := 0 }
        (by norm_num) (Or.inl hexcl)
    refine ⟨by simpa [FLT_EXCLUDE] using hbit, ?_⟩
    intro f line
    show (if (parseOpts opts).filter_logic &&& FLT_EXCLUDE ≠ 0 then !(f line) else f line)
        = !(f line)
    rw [if_pos (by simpa [FLT_EXCLUDE] using hbit)]
  · intro pre post o s ho hpost
    unfold parseOpts
    rw [List.foldl_append, List.foldl_cons, foldl_str_none post _ hpost]
    cases o with
    | optInclude s2 => simp [exprStr?] at ho; simp [applyOpt, ho]
    | optExclude s2 => simp [exprStr?] at ho; simp [applyOpt, ho]
    | optOther => simp [exprStr?] at ho

/-- C10 (witness): with `-i i-expr` followed by `-e e-expr`, the exclude
bit is set, a site whose evaluator says true is rejected, and the kept
expression string is the later one, `e-expr`. -/
theorem exclude_bit_wins_c10_witness :
    (parseOpts [Opt.optInclude ("i-expr"), Opt.optExclude ("e-expr")]).filter_logic
        &&& FLT_EXCLUDE ≠ 0
    ∧ sitePass (some (fun _ => true))
        (parseOpts [Opt.optInclude ("i-expr"), Opt.optExclude ("e-expr")]).filter_logic
        { n_allele := 2, conv := [] } = false
    ∧ (parseOpts [Opt.optInclude ("i-expr"), Opt.optExclude ("e-expr")]).filter_str
        = some ("e-expr") := by
  have h := exclude_bit_wins_c10 [Opt.optInclude ("i-expr"), Opt.optExclude ("e-expr")]
  have h1 := h.1 ⟨("i-expr"), by simp⟩ ⟨("e-expr"), by simp⟩
  refine ⟨h1.1, ?_, ?_⟩
  · have h2 := h1.2 (fun _ => true) { n_allele := 2, conv := [] }
    simpa using h2
  · have h3 := h.2 [Opt.optInclude ("i-expr")] [] (Opt.optExclude ("e-expr")) ("e-expr")
      rfl (by simp)
    simpa using h3

end VcfConvert
